import Mathlib

/-!
Verification of the duplicate-file finder (`src/main.cpp`).

The program is embedded shallowly:

* A file system entry (`Arquivo`) records the data the program observes about
  one path: the path string, its base name (`path().filename()`), whether the
  entry is a regular file, the byte content that a successful open would read
  (`none` when the file cannot be opened), and the on-disk size that
  `std::filesystem::file_size` would report at reporting time (`none` when the
  file has vanished by then, in which case `file_size` throws).
* Machine integers (`size_t`, the SHA-256 words) are `Nat` with explicit
  reductions modulo `2^32` where the C++ arithmetic wraps.
* Fallible operations (`file_size`, the recursive directory iterator) return
  `Except Falha _`; an `Except.error` that reaches the top of `mainModelo`
  models an exception that no handler catches, i.e. a crash of the run.
* The Crypto++ incremental interface (`SHA256::Update` / `Final`) is modelled
  by accumulating the fed bytes and applying the (fully implemented) SHA-256
  function to them at `Final`; `HexEncoder` is modelled by `hexEncode`
  (uppercase hexadecimal, Crypto++'s default).
-/

namespace LocalizarDuplicatas

/-! ## SHA-256 (the digest used by `calcularHash` via Crypto++) -/

/-- Reduction modulo `2 ^ 32`, the word size of SHA-256 arithmetic. -/
def w32 (x : Nat) : Nat := x % 4294967296

/-- Right rotation of a 32-bit word by `n`. -/
def rotr (n x : Nat) : Nat := w32 ((x >>> n) ||| (x <<< (32 - n)))

/-- Big sigma-0 of the SHA-256 compression function. -/
def bsig0 (x : Nat) : Nat := rotr 2 x ^^^ rotr 13 x ^^^ rotr 22 x

/-- Big sigma-1 of the SHA-256 compression function. -/
def bsig1 (x : Nat) : Nat := rotr 6 x ^^^ rotr 11 x ^^^ rotr 25 x

/-- Small sigma-0 of the SHA-256 message schedule. -/
def ssig0 (x : Nat) : Nat := rotr 7 x ^^^ rotr 18 x ^^^ (x >>> 3)

/-- Small sigma-1 of the SHA-256 message schedule. -/
def ssig1 (x : Nat) : Nat := rotr 17 x ^^^ rotr 19 x ^^^ (x >>> 10)

/-- The `Ch` function of SHA-256 (`(x AND y) XOR (NOT x AND z)` on 32 bits). -/
def escolher (x y z : Nat) : Nat := (x &&& y) ^^^ ((x ^^^ 4294967295) &&& z)

/-- The `Maj` function of SHA-256. -/
def maioria (x y z : Nat) : Nat := (x &&& y) ^^^ (x &&& z) ^^^ (y &&& z)

/-- The 64 SHA-256 round constants (decimal). -/
def constantesK : List Nat :=
  [1116352408, 1899447441, 3049323471, 3921009573, 961987163,
   1508970993, 2453635748, 2870763221, 3624381080, 310598401,
   607225278, 1426881987, 1925078388, 2162078206, 2614888103,
   3248222580, 3835390401, 4022224774, 264347078, 604807628,
   770255983, 1249150122, 1555081692, 1996064986, 2554220882,
   2821834349, 2952996808, 3210313671, 3336571891, 3584528711,
   113926993, 338241895, 666307205, 773529912, 1294757372,
   1396182291, 1695183700, 1986661051, 2177026350, 2456956037,
   2730485921, 2820302411, 3259730800, 3345764771, 3516065817,
   3600352804, 4094571909, 275423344, 430227734, 506948616,
   659060556, 883997877, 958139571, 1322822218, 1537002063,
   1747873779, 1955562222, 2024104815, 2227730452, 2361852424,
   2428436474, 2756734187, 3204031479, 3329325298]

/-- The eight 32-bit words of the running SHA-256 state. -/
structure EstadoHash where
  h0 : Nat
  h1 : Nat
  h2 : Nat
  h3 : Nat
  h4 : Nat
  h5 : Nat
  h6 : Nat
  h7 : Nat
deriving DecidableEq

/-- The SHA-256 initial state (decimal). -/
def estadoInicial : EstadoHash :=
  ⟨1779033703, 3144134277, 1013904242, 2773480762,
   1359893119, 2600822924, 528734635, 1541459225⟩

/-- The eight big-endian bytes of the 64-bit message length in bits. -/
def comprimentoBytes (n : Nat) : List Nat :=
  [(n >>> 56) % 256, (n >>> 48) % 256, (n >>> 40) % 256, (n >>> 32) % 256,
   (n >>> 24) % 256, (n >>> 16) % 256, (n >>> 8) % 256, n % 256]

/-- SHA-256 padding: a `0x80` byte, zeros up to 56 mod 64, then the bit length. -/
def preencher (msg : List Nat) : List Nat :=
  msg ++ [128] ++ List.replicate ((119 - (msg.length % 64)) % 64) 0 ++ comprimentoBytes (8 * msg.length)

/-- Packs big-endian groups of four bytes into 32-bit words. -/
def paraPalavras : List Nat → List Nat
  | b0 :: b1 :: b2 :: b3 :: resto =>
      (b0 * 16777216 + b1 * 65536 + b2 * 256 + b3) :: paraPalavras resto
  | _ => []

/-- Splits a word list into 16-word blocks (the padded message is a multiple of 16 words). -/
def paraBlocos : List Nat → List (List Nat)
  | w0 :: w1 :: w2 :: w3 :: w4 :: w5 :: w6 :: w7 ::
    w8 :: w9 :: w10 :: w11 :: w12 :: w13 :: w14 :: w15 :: resto =>
      [w0, w1, w2, w3, w4, w5, w6, w7, w8, w9, w10, w11, w12, w13, w14, w15] :: paraBlocos resto
  | _ => []

/-- Extends a 16-word block to the 64-word message schedule. -/
def expandir (ws : List Nat) : List Nat :=
  (List.range 48).foldl
    (fun acc i =>
      acc ++ [w32 (ssig1 (acc.getD (i + 14) 0) + acc.getD (i + 9) 0 +
                   ssig0 (acc.getD (i + 1) 0) + acc.getD i 0)])
    ws

/-- One round of the SHA-256 compression function. -/
def rodada (st : EstadoHash) (w k : Nat) : EstadoHash :=
  let t1 := w32 (st.h7 + bsig1 st.h4 + escolher st.h4 st.h5 st.h6 + k + w)
  let t2 := w32 (bsig0 st.h0 + maioria st.h0 st.h1 st.h2)
  ⟨w32 (t1 + t2), st.h0, st.h1, st.h2, w32 (st.h3 + t1), st.h4, st.h5, st.h6⟩

/-- Compresses one 16-word block into the running state. -/
def comprimirBloco (st : EstadoHash) (bloco : List Nat) : EstadoHash :=
  let fim := ((expandir bloco).zip constantesK).foldl (fun s p => rodada s p.1 p.2) st
  ⟨w32 (st.h0 + fim.h0), w32 (st.h1 + fim.h1), w32 (st.h2 + fim.h2), w32 (st.h3 + fim.h3),
   w32 (st.h4 + fim.h4), w32 (st.h5 + fim.h5), w32 (st.h6 + fim.h6), w32 (st.h7 + fim.h7)⟩

/-- The four big-endian bytes of a 32-bit word. -/
def palavraParaBytes (w : Nat) : List Nat :=
  [(w >>> 24) % 256, (w >>> 16) % 256, (w >>> 8) % 256, w % 256]

/-- Serializes the final state into the 32 digest bytes. -/
def estadoParaBytes (st : EstadoHash) : List Nat :=
  palavraParaBytes st.h0 ++ palavraParaBytes st.h1 ++ palavraParaBytes st.h2 ++
  palavraParaBytes st.h3 ++ palavraParaBytes st.h4 ++ palavraParaBytes st.h5 ++
  palavraParaBytes st.h6 ++ palavraParaBytes st.h7

/-- SHA-256 of a byte sequence (`CryptoPP::SHA256` fed with exactly these bytes). -/
def sha256 (msg : List Nat) : List Nat :=
  estadoParaBytes ((paraBlocos (paraPalavras (preencher msg))).foldl comprimirBloco estadoInicial)

/-! ## Hex encoding (`CryptoPP::HexEncoder`, uppercase by default) -/

/-- A single uppercase hexadecimal digit. -/
def hexDigito (n : Nat) : Char := if n < 10 then Char.ofNat (48 + n) else Char.ofNat (55 + n)

/-- Two hexadecimal characters per byte, in order. -/
def paraHex : List Nat → List Char
  | [] => []
  | b :: resto => hexDigito (b / 16) :: hexDigito (b % 16) :: paraHex resto

/-- Renders digest bytes as the hexadecimal string produced by `HexEncoder`. -/
def hexEncode (bytes : List Nat) : String := String.mk (paraHex bytes)

/-! ## The file-system model -/

/-- What the program observes about one path during a run: the path itself,
its base name (`path().filename()`), whether it is a regular file, the byte
content a successful open reads (`none` when the open fails), and the size
`std::filesystem::file_size` reports at reporting time (`none` when the file
has vanished by then, making `file_size` throw). -/
structure Arquivo where
  caminho : String
  nome : String
  ehRegular : Bool
  conteudo : Option (List Nat)
  tamanho : Option Nat
deriving DecidableEq

/-- The exceptions that can escape the program (`main.cpp` has no handler for
either): the recursive directory iterator refusing a non-directory root, and
`std::filesystem::file_size` on a vanished file. -/
inductive Falha where
  | naoDiretorio : Falha
  | arquivoSumiu : Falha
deriving DecidableEq

/-- The root path the user supplies: whether it exists, whether it is a
directory, and the regular-file entries a recursive traversal finds under it. -/
structure Raiz where
  existe : Bool
  ehDiretorio : Bool
  entradas : List Arquivo

/-! ## Digest engine (`calcularHash`, `main.cpp` lines 18-49) -/

/-- The read loop of `calcularHash` (lines 28-34): bytes stream into the
8192-byte buffer; each time the buffer fills, one `read` has succeeded and the
buffer is fed to `hash.Update`; at end of file the final partial buffer is fed
when `gcount() > 0`. `alimentado` is the byte sequence fed to the accumulator
so far, `buffer` the bytes of the current partial chunk. -/
def lerLoop : List Nat → List Nat → List Nat → List Nat
  | alimentado, buffer, [] => if buffer.length > 0 then alimentado ++ buffer else alimentado
  | alimentado, buffer, b :: resto =>
      if (buffer ++ [b]).length = 8192 then lerLoop (alimentado ++ (buffer ++ [b])) [] resto
      else lerLoop alimentado (buffer ++ [b]) resto

/-- `calcularHash` (lines 18-49): empty string when the file cannot be opened
(line 24); otherwise the chunked content is streamed through SHA-256 and the
digest is hex encoded. `Update`/`Final` are modelled by accumulating the fed
bytes and hashing them at finalization. -/
def calcularHash (a : Arquivo) : String :=
  match a.conteudo with
  | none => ""
  | some dados => hexEncode (sha256 (lerLoop [] [] dados))

/-! ## Grouping (`std::unordered_map<std::string, std::vector<path>>`) -/

/-- `mapa[chave].push_back(a)` on an association-list model of the map: append
to the existing key's vector, or add a new key with a one-element vector. -/
def inserirGrupo (chave : String) (a : Arquivo) :
    List (String × List Arquivo) → List (String × List Arquivo)
  | [] => [(chave, [a])]
  | (k, l) :: resto =>
      if k = chave then (k, l ++ [a]) :: resto else (k, l) :: inserirGrupo chave a resto

/-- One step of the traversal loop (lines 57-60): a regular file is recorded
under its base name, anything else is skipped. -/
def passoNome (grupos : List (String × List Arquivo)) (a : Arquivo) :
    List (String × List Arquivo) :=
  if a.ehRegular then inserirGrupo a.nome a grupos else grupos

/-- The name index built by `obter_arquivos_duplicados` (lines 53-62). -/
def agruparPorNome (entradas : List Arquivo) : List (String × List Arquivo) :=
  entradas.foldl passoNome []

/-- One step of the hashing loop (lines 74-78): the digest is computed and the
path is recorded under it only when the digest is not the empty failure
sentinel. -/
def passoHash (grupos : List (String × List Arquivo)) (a : Arquivo) :
    List (String × List Arquivo) :=
  if calcularHash a ≠ "" then inserirGrupo (calcularHash a) a grupos else grupos

/-- The per-name hash index `hashes` of `exibir_duplicados` (lines 73-78). -/
def agruparPorHash (caminhos : List Arquivo) : List (String × List Arquivo) :=
  caminhos.foldl passoHash []

/-- The digest invocations `exibir_duplicados` performs (lines 70-78):
`calcularHash` is called once per member of every name group with two or more
members, and for no other path. (When a run aborts early this over-approximates
the calls actually made, which is conservative for never-invoked statements.) -/
def chamadasDigest : List (String × List Arquivo) → List Arquivo
  | [] => []
  | (_, caminhos) :: resto =>
      if caminhos.length > 1 then caminhos ++ chamadasDigest resto else chamadasDigest resto

/-! ## Reporting (`exibir_duplicados`, lines 65-97) -/

/-- One duplicate set printed at lines 82-84: the shared base name, the shared
digest, and the member paths. -/
structure Grupo where
  nome : String
  hash : String
  caminhos : List Arquivo
deriving DecidableEq

/-- The observable outcome of `exibir_duplicados`: the printed duplicate
groups, the accumulated `tamanhoTotalEmBytes` and `totalDuplicatas` counters,
and the `encontrouDuplicados` flag. -/
structure Resumo where
  grupos : List Grupo
  tamanhoTotal : Nat
  totalDuplicatas : Nat
  encontrou : Bool
deriving DecidableEq

/-- `std::filesystem::file_size` at line 85: the current size, or a thrown
`filesystem_error` when the file has vanished. -/
def tamanhoArquivo (a : Arquivo) : Except Falha Nat :=
  match a.tamanho with
  | some n => Except.ok n
  | none => Except.error Falha.arquivoSumiu

/-- The inner accumulation loop at lines 83-87: every member of a reported
hash group adds its current file size to `tamanhoTotalEmBytes` and bumps
`totalDuplicatas`; a vanished file makes `file_size` throw. -/
def somarGrupo : List Arquivo → Nat → Nat → Except Falha (Nat × Nat)
  | [], bytes, contagem => Except.ok (bytes, contagem)
  | a :: resto, bytes, contagem =>
      match tamanhoArquivo a with
      | Except.error e => Except.error e
      | Except.ok t => somarGrupo resto (bytes + t) (contagem + 1)

/-- The loop over hash groups at lines 80-90: groups with two or more members
are printed and accumulated, the others are ignored. -/
def processarHashGrupos (nome : String) :
    List (String × List Arquivo) → Resumo → Except Falha Resumo
  | [], r => Except.ok r
  | (h, cs) :: resto, r =>
      if cs.length > 1 then
        match somarGrupo cs r.tamanhoTotal r.totalDuplicatas with
        | Except.error e => Except.error e
        | Except.ok (b, c) =>
            processarHashGrupos nome resto ⟨r.grupos ++ [⟨nome, h, cs⟩], b, c, true⟩
      else processarHashGrupos nome resto r

/-- The outer loop of `exibir_duplicados` (lines 70-92): name groups with two
or more members are hashed and examined, singleton groups are skipped. -/
def exibirLoop : List (String × List Arquivo) → Resumo → Except Falha Resumo
  | [], r => Except.ok r
  | (nome, caminhos) :: resto, r =>
      if caminhos.length > 1 then
        match processarHashGrupos nome (agruparPorHash caminhos) r with
        | Except.error e => Except.error e
        | Except.ok r2 => exibirLoop resto r2
      else exibirLoop resto r

/-- `exibir_duplicados` (lines 65-97), starting from zeroed counters. -/
def exibir_duplicados (grupos : List (String × List Arquivo)) : Except Falha Resumo :=
  exibirLoop grupos ⟨[], 0, 0, false⟩

/-! ## Traversal and `main` (lines 51-63 and 99-120) -/

/-- `obter_arquivos_duplicados` (lines 51-63): the recursive directory
iterator throws `filesystem_error` when the root is not a directory; otherwise
every regular file found is indexed by base name. -/
def obter_arquivos_duplicados (raiz : Raiz) : Except Falha (List (String × List Arquivo)) :=
  if raiz.ehDiretorio then Except.ok (agruparPorNome raiz.entradas)
  else Except.error Falha.naoDiretorio

/-- Lines 113-118: when `totalDuplicatas` is nonzero, the printed estimate is
`tamanhoBytes - tamanhoBytes / total` (`size_t` arithmetic); otherwise no
estimate line is printed. -/
def estimativaLiberacao (tamanhoBytes total : Nat) : Option Nat :=
  if total ≠ 0 then some (tamanhoBytes - tamanhoBytes / total) else none

/-- `main` (lines 99-120): a nonexistent root prints one error line and
returns `-1` before any traversal; otherwise the pipeline runs (any escaping
exception is a crash, modelled by `Except.error`) and the process returns `0`,
printing the estimate line exactly when one is computed. -/
def mainModelo (raiz : Raiz) : Except Falha (Option Nat × Int) :=
  if raiz.existe then
    match obter_arquivos_duplicados raiz with
    | Except.error e => Except.error e
    | Except.ok arquivos =>
        match exibir_duplicados arquivos with
        | Except.error e => Except.error e
        | Except.ok r => Except.ok (estimativaLiberacao r.tamanhoTotal r.totalDuplicatas, 0)
  else Except.ok (none, -1)

/-! ## Specification-side aggregates and invariant predicates -/

/-- The keys of the association-list map. -/
def chaves (g : List (String × List Arquivo)) : List String := g.map Prod.fst

/-- The on-disk bytes of one reported group: the sum of its members' sizes. -/
def tamanhoGrupoRelatado (g : Grupo) : Nat := (g.caminhos.map (fun a => a.tamanho.getD 0)).sum

/-- Total on-disk bytes of all files in all reported duplicate groups. -/
def somaTamanhos (gs : List Grupo) : Nat := (gs.map tamanhoGrupoRelatado).sum

/-- Total count of files in all reported duplicate groups. -/
def somaContagens (gs : List Grupo) : Nat := (gs.map (fun g => g.caminhos.length)).sum

/-- The HashGroup invariant of a reported group: every member carries the
group's shared base name and the group's shared digest, and that digest is not
the failure sentinel. -/
def PropGrupo (g : Grupo) : Prop :=
  ∀ p ∈ g.caminhos, p.nome = g.nome ∧ calcularHash p = g.hash ∧ g.hash ≠ ""

/-- The counters of a `Resumo` agree with its printed groups. -/
def Agregados (r : Resumo) : Prop :=
  r.tamanhoTotal = somaTamanhos r.grupos ∧ r.totalDuplicatas = somaContagens r.grupos

/-! ## Concrete test fixtures (the spec's Scenario A, and failure variants) -/

/-- `a/x.txt` with content "hello", 5 bytes on disk. -/
def arqA : Arquivo := ⟨"a/x.txt", "x.txt", true, some [104, 101, 108, 108, 111], some 5⟩

/-- `b/x.txt` with content "hello", 5 bytes on disk. -/
def arqB : Arquivo := ⟨"b/x.txt", "x.txt", true, some [104, 101, 108, 108, 111], some 5⟩

/-- `c/x.txt` with content "hello", vanished before its size query. -/
def arqSumido : Arquivo := ⟨"c/x.txt", "x.txt", true, some [104, 101, 108, 108, 111], none⟩

/-- A uniquely named file. -/
def arqUnico : Arquivo := ⟨"a/y.txt", "y.txt", true, some [119], some 1⟩

/-- A file that cannot be opened for reading. -/
def arqFalho : Arquivo := ⟨"a/z.txt", "z.txt", true, none, some 7⟩

/-- An empty file. -/
def arqVazio : Arquivo := ⟨"a/v.txt", "v.txt", true, some [], some 0⟩

/-- The report of the run over `[arqA, arqB]` (spec Scenario A). -/
def resumoAB : Resumo := ⟨[⟨"x.txt", calcularHash arqA, [arqA, arqB]⟩], 10, 2, true⟩

/-! ## Lemmas about the digest engine -/

/-- Streaming through the 8192-byte buffer feeds exactly the remaining bytes. -/
theorem lerLoop_eq : ∀ (dados alimentado buffer : List Nat),
    lerLoop alimentado buffer dados = alimentado ++ (buffer ++ dados) := by
  intro dados
  induction dados with
  | nil =>
      intro alimentado buffer
      by_cases h : buffer.length > 0
      · simp [lerLoop, h]
      · have hb : buffer = [] := List.eq_nil_of_length_eq_zero (by omega)
        simp [lerLoop, hb]
  | cons b resto ih =>
      intro alimentado buffer
      by_cases h : (buffer ++ [b]).length = 8192
      · simp only [lerLoop, h, if_pos]
        rw [ih]
        simp
      · simp only [lerLoop, h, if_neg, not_false_iff]
        rw [ih]
        simp

/-- On an openable file the digest is a function of the byte content alone:
the chunked loop hashes exactly the whole content. -/
theorem calcularHash_conteudo (a : Arquivo) (bs : List Nat) (h : a.conteudo = some bs) :
    calcularHash a = hexEncode (sha256 bs) := by
  simp [calcularHash, h, lerLoop_eq]

/-- A file that cannot be opened yields the empty sentinel. -/
theorem calcularHash_falha (a : Arquivo) (h : a.conteudo = none) : calcularHash a = "" := by
  simp [calcularHash, h]

/-- Hex rendering writes two characters per byte. -/
theorem paraHex_length : ∀ (l : List Nat), (paraHex l).length = 2 * l.length := by
  intro l
  induction l with
  | nil => rfl
  | cons b resto ih => simp [paraHex, ih]; omega

/-- The string produced by `hexEncode` has twice as many characters as bytes. -/
theorem hexEncode_length (l : List Nat) : (hexEncode l).length = 2 * l.length :=
  paraHex_length l

/-- The SHA-256 digest always consists of exactly 32 bytes. -/
theorem sha256_length (msg : List Nat) : (sha256 msg).length = 32 := rfl

/-- The four bytes of a serialized word are below 256. -/
theorem palavraParaBytes_lt (w : Nat) : ∀ b ∈ palavraParaBytes w, b < 256 := by
  intro b hb
  simp only [palavraParaBytes, List.mem_cons, List.not_mem_nil, or_false] at hb
  rcases hb with h | h | h | h <;> subst h <;> exact Nat.mod_lt _ (by omega)

/-- The serialized state bytes are below 256. -/
theorem estadoParaBytes_lt (st : EstadoHash) : ∀ b ∈ estadoParaBytes st, b < 256 := by
  intro b hb
  simp only [estadoParaBytes, List.mem_append] at hb
  rcases hb with ((((((h | h) | h) | h) | h) | h) | h) | h <;> exact palavraParaBytes_lt _ b h

/-- Every digest byte is below 256. -/
theorem sha256_bytes_lt (msg : List Nat) : ∀ b ∈ sha256 msg, b < 256 := by
  intro b hb
  simp only [sha256] at hb
  exact estadoParaBytes_lt _ b hb

/-- Every uppercase hexadecimal digit of a value below 16. -/
theorem hexDigito_mem : ∀ n < 16, hexDigito n ∈ ("0123456789ABCDEF").data := by decide

/-- All characters emitted for in-range bytes are hexadecimal digits. -/
theorem paraHex_mem : ∀ (l : List Nat), (∀ b ∈ l, b < 256) →
    ∀ c ∈ paraHex l, c ∈ ("0123456789ABCDEF").data := by
  intro l
  induction l with
  | nil => intro _ c hc; simp [paraHex] at hc
  | cons b resto ih =>
      intro hl c hc
      have hb : b < 256 := hl b (List.mem_cons_self b resto)
      simp only [paraHex, List.mem_cons] at hc
      rcases hc with h | h | h
      · subst h; exact hexDigito_mem _ (Nat.div_lt_of_lt_mul (by omega))
      · subst h; exact hexDigito_mem _ (Nat.mod_lt _ (by omega))
      · exact ih (fun x hx => hl x (List.mem_cons_of_mem b hx)) c h

/-- The hex rendering of a SHA-256 digest is a 64-character string. -/
theorem sha256_hex_length (msg : List Nat) : (hexEncode (sha256 msg)).length = 64 := by
  rw [hexEncode_length, sha256_length]

/-- The hex rendering of a SHA-256 digest is never the empty failure sentinel. -/
theorem sha256_hex_ne (msg : List Nat) : hexEncode (sha256 msg) ≠ "" := by
  intro h
  have hl : (hexEncode (sha256 msg)).length = 0 := by rw [h]; rfl
  rw [sha256_hex_length] at hl
  omega

/-! ## Lemmas about the grouping maps -/

/-- A per-member property attached to each group's key survives an insertion
whose key satisfies it for the inserted element. -/
theorem inserirGrupo_prop (R : String → Arquivo → Prop) :
    ∀ (g : List (String × List Arquivo)) (chave : String) (a : Arquivo),
      (∀ q ∈ g, ∀ x ∈ q.2, R q.1 x) → R chave a →
      ∀ q ∈ inserirGrupo chave a g, ∀ x ∈ q.2, R q.1 x := by
  intro g
  induction g with
  | nil =>
      intro chave a _ hRa q hq x hx
      simp only [inserirGrupo, List.mem_singleton] at hq
      subst hq
      simp only [List.mem_singleton] at hx
      subst hx
      exact hRa
  | cons p resto ih =>
      intro chave a hg hRa q hq x hx
      obtain ⟨k, l⟩ := p
      simp only [inserirGrupo] at hq
      split at hq
      · rename_i hk
        rcases List.mem_cons.mp hq with hq | hq
        · subst hq
          rcases List.mem_append.mp hx with hx2 | hx2
          · exact hg (k, l) (List.mem_cons_self _ _) x hx2
          · have hxa : x = a := by simpa using hx2
            subst hxa
            rw [hk]
            exact hRa
        · exact hg q (List.mem_cons_of_mem _ hq) x hx
      · rcases List.mem_cons.mp hq with hq | hq
        · subst hq
          exact hg (k, l) (List.mem_cons_self _ _) x hx
        · exact ih chave a (fun q2 hq2 => hg q2 (List.mem_cons_of_mem _ hq2)) hRa q hq x hx

/-- Fold invariant for the traversal loop: a keyed per-member property holding
of every recorded entry holds throughout the built name index. -/
theorem foldl_passoNome_prop (R : String → Arquivo → Prop) :
    ∀ (es : List Arquivo) (g : List (String × List Arquivo)),
      (∀ a ∈ es, R a.nome a) → (∀ q ∈ g, ∀ x ∈ q.2, R q.1 x) →
      ∀ q ∈ es.foldl passoNome g, ∀ x ∈ q.2, R q.1 x := by
  intro es
  induction es with
  | nil =>
      intro g _ hg
      simpa using hg
  | cons a resto ih =>
      intro g hes hg
      simp only [List.foldl_cons]
      refine ih (passoNome g a) (fun b hb => hes b (List.mem_cons_of_mem _ hb)) ?_
      unfold passoNome
      by_cases hr : a.ehRegular = true
      · rw [if_pos hr]
        exact inserirGrupo_prop R g a.nome a hg (hes a (List.mem_cons_self _ _))
      · rw [if_neg hr]
        exact hg

/-- Every group of the name index satisfies a property holding of every entry
under its own name. -/
theorem agruparPorNome_prop (R : String → Arquivo → Prop) (es : List Arquivo)
    (h : ∀ a ∈ es, R a.nome a) : ∀ q ∈ agruparPorNome es, ∀ x ∈ q.2, R q.1 x :=
  foldl_passoNome_prop R es [] h (by simp)

/-- Members of a name group carry the group's key as their base name. -/
theorem agruparPorNome_nomes (es : List Arquivo) :
    ∀ q ∈ agruparPorNome es, ∀ x ∈ q.2, x.nome = q.1 :=
  agruparPorNome_prop (fun k x => x.nome = k) es (fun _ _ => rfl)

/-- Members of a name group all come from the traversed entries. -/
theorem agruparPorNome_sub (es : List Arquivo) :
    ∀ q ∈ agruparPorNome es, ∀ x ∈ q.2, x ∈ es :=
  agruparPorNome_prop (fun _ x => x ∈ es) es (fun _ ha => ha)

/-- Fold invariant for the hashing loop: only paths whose digest succeeded are
inserted, keyed by their own digest. -/
theorem foldl_passoHash_prop (R : String → Arquivo → Prop) :
    ∀ (cs : List Arquivo) (g : List (String × List Arquivo)),
      (∀ a ∈ cs, calcularHash a ≠ "" → R (calcularHash a) a) →
      (∀ q ∈ g, ∀ x ∈ q.2, R q.1 x) →
      ∀ q ∈ cs.foldl passoHash g, ∀ x ∈ q.2, R q.1 x := by
  intro cs
  induction cs with
  | nil =>
      intro g _ hg
      simpa using hg
  | cons a resto ih =>
      intro g hcs hg
      simp only [List.foldl_cons]
      refine ih (passoHash g a) (fun b hb => hcs b (List.mem_cons_of_mem _ hb)) ?_
      unfold passoHash
      by_cases hr : calcularHash a ≠ ""
      · rw [if_pos hr]
        exact inserirGrupo_prop R g (calcularHash a) a hg (hcs a (List.mem_cons_self _ _) hr)
      · rw [if_neg hr]
        exact hg

/-- Members of a hash group carry the group's key as their own digest, that
key is not the failure sentinel, and the member belongs to the hashed list. -/
theorem agruparPorHash_inv (cs : List Arquivo) :
    ∀ q ∈ agruparPorHash cs, ∀ x ∈ q.2, calcularHash x = q.1 ∧ q.1 ≠ "" ∧ x ∈ cs :=
  foldl_passoHash_prop (fun k x => calcularHash x = k ∧ k ≠ "" ∧ x ∈ cs) cs []
    (fun a ha hne => ⟨rfl, hne, ha⟩) (by simp)

/-- Inserting appends the key exactly when it is new. -/
theorem chaves_inserirGrupo : ∀ (g : List (String × List Arquivo)) (chave : String) (a : Arquivo),
    chaves (inserirGrupo chave a g) =
      if chave ∈ chaves g then chaves g else chaves g ++ [chave] := by
  intro g
  induction g with
  | nil => intro chave a; simp [chaves, inserirGrupo]
  | cons p resto ih =>
      intro chave a
      obtain ⟨k, l⟩ := p
      by_cases hk : k = chave
      · subst hk
        simp [chaves, inserirGrupo]
      · have h1 : inserirGrupo chave a ((k, l) :: resto) = (k, l) :: inserirGrupo chave a resto := by
          simp [inserirGrupo, hk]
        have h2 : chaves ((k, l) :: inserirGrupo chave a resto) =
            k :: chaves (inserirGrupo chave a resto) := rfl
        have h3 : chaves ((k, l) :: resto) = k :: chaves resto := rfl
        rw [h1, h2, ih, h3]
        by_cases hm : chave ∈ chaves resto
        · rw [if_pos hm, if_pos (List.mem_cons_of_mem _ hm)]
        · rw [if_neg hm, if_neg (by simp [List.mem_cons, hm, Ne.symm hk])]
          rfl

/-- Insertions keep the keys of the map pairwise distinct. -/
theorem nodup_chaves_inserir (g : List (String × List Arquivo)) (chave : String) (a : Arquivo)
    (h : (chaves g).Nodup) : (chaves (inserirGrupo chave a g)).Nodup := by
  rw [chaves_inserirGrupo]
  by_cases hm : chave ∈ chaves g
  · simpa [hm] using h
  · simp only [hm, if_neg, not_false_iff]
    simp [List.nodup_append, h, hm]

/-- The name index has pairwise distinct keys. -/
theorem nodup_chaves_agruparPorNome (es : List Arquivo) : (chaves (agruparPorNome es)).Nodup := by
  suffices h : ∀ (es2 : List Arquivo) (g : List (String × List Arquivo)),
      (chaves g).Nodup → (chaves (es2.foldl passoNome g)).Nodup from h es [] (by simp [chaves])
  intro es2
  induction es2 with
  | nil => intro g hg; simpa using hg
  | cons a resto ih =>
      intro g hg
      simp only [List.foldl_cons]
      refine ih (passoNome g a) ?_
      unfold passoNome
      by_cases hr : a.ehRegular
      · simp only [hr, if_pos]
        exact nodup_chaves_inserir g a.nome a hg
      · simpa [hr] using hg

/-- In a map with distinct keys, a key determines its group. -/
theorem grupo_unico : ∀ (g : List (String × List Arquivo)), (chaves g).Nodup →
    ∀ (k : String) (l1 l2 : List Arquivo), (k, l1) ∈ g → (k, l2) ∈ g → l1 = l2 := by
  intro g
  induction g with
  | nil => intro _ k l1 l2 h1; simp at h1
  | cons p resto ih =>
      intro hnd k l1 l2 h1 h2
      obtain ⟨k0, l0⟩ := p
      have hnd2 : k0 ∉ chaves resto ∧ (chaves resto).Nodup := by
        simpa [chaves, List.nodup_cons] using hnd
      simp only [List.mem_cons, Prod.mk.injEq] at h1 h2
      rcases h1 with ⟨hk1, hl1⟩ | h1
      · rcases h2 with ⟨hk2, hl2⟩ | h2
        · rw [hl1, hl2]
        · exfalso
          refine hnd2.1 ?_
          rw [← hk1]
          exact List.mem_map.mpr ⟨(k, l2), h2, rfl⟩
      · rcases h2 with ⟨hk2, hl2⟩ | h2
        · exfalso
          refine hnd2.1 ?_
          rw [← hk2]
          exact List.mem_map.mpr ⟨(k, l1), h1, rfl⟩
        · exact ih hnd2.2 k l1 l2 h1 h2

/-- Every digested path belongs to a name group with at least two members. -/
theorem mem_chamadasDigest : ∀ (g : List (String × List Arquivo)) (a : Arquivo),
    a ∈ chamadasDigest g → ∃ q, q ∈ g ∧ q.2.length > 1 ∧ a ∈ q.2 := by
  intro g
  induction g with
  | nil => intro a ha; simp [chamadasDigest] at ha
  | cons p resto ih =>
      intro a ha
      obtain ⟨k, cs⟩ := p
      by_cases hl : cs.length > 1
      · simp only [chamadasDigest, hl, if_pos, List.mem_append] at ha
        rcases ha with ha | ha
        · exact ⟨(k, cs), List.mem_cons_self _ _, hl, ha⟩
        · obtain ⟨q, hq, hq2, hq3⟩ := ih a ha
          exact ⟨q, List.mem_cons_of_mem _ hq, hq2, hq3⟩
      · simp only [chamadasDigest, hl, if_neg, not_false_iff] at ha
        obtain ⟨q, hq, hq2, hq3⟩ := ih a ha
        exact ⟨q, List.mem_cons_of_mem _ hq, hq2, hq3⟩

/-! ## Lemmas about the reporting loop -/

/-- Sizes and counts accumulated over one hash group. -/
theorem somarGrupo_eq : ∀ (cs : List Arquivo) (b c b2 c2 : Nat),
    somarGrupo cs b c = Except.ok (b2, c2) →
    b2 = b + (cs.map (fun a => a.tamanho.getD 0)).sum ∧ c2 = c + cs.length := by
  intro cs
  induction cs with
  | nil =>
      intro b c b2 c2 h
      simp only [somarGrupo, Except.ok.injEq, Prod.mk.injEq] at h
      simp [← h.1, ← h.2]
  | cons a resto ih =>
      intro b c b2 c2 h
      simp only [somarGrupo] at h
      cases ht : a.tamanho with
      | none => rw [tamanhoArquivo, ht] at h; simp at h
      | some t =>
          rw [tamanhoArquivo, ht] at h
          simp only at h
          obtain ⟨h1, h2⟩ := ih (b + t) (c + 1) b2 c2 h
          constructor
          · rw [h1]; simp [ht]; omega
          · rw [h2]; simp; omega

/-- Every member of a hash group contributes a successfully queried size in a
completed accumulation. -/
theorem somarGrupo_ok : ∀ (cs : List Arquivo) (b c : Nat),
    (∀ a ∈ cs, a.tamanho ≠ none) → ∃ p, somarGrupo cs b c = Except.ok p := by
  intro cs
  induction cs with
  | nil => intro b c _; exact ⟨(b, c), rfl⟩
  | cons a resto ih =>
      intro b c hcs
      cases ht : a.tamanho with
      | none => exact absurd ht (hcs a (List.mem_cons_self _ _))
      | some t =>
          obtain ⟨p, hp⟩ := ih (b + t) (c + 1) (fun x hx => hcs x (List.mem_cons_of_mem _ hx))
          exact ⟨p, by simp only [somarGrupo, tamanhoArquivo, ht]; exact hp⟩

/-- Groups recorded by the hash-group loop satisfy the HashGroup invariant
when the incoming hash index does. -/
theorem processar_inv : ∀ (hgs : List (String × List Arquivo)) (nome : String) (r r2 : Resumo),
    (∀ q ∈ hgs, ∀ x ∈ q.2, calcularHash x = q.1 ∧ q.1 ≠ "" ∧ x.nome = nome) →
    (∀ g ∈ r.grupos, PropGrupo g) →
    processarHashGrupos nome hgs r = Except.ok r2 →
    ∀ g ∈ r2.grupos, PropGrupo g := by
  intro hgs
  induction hgs with
  | nil =>
      intro nome r r2 _ hr h
      simp only [processarHashGrupos, Except.ok.injEq] at h
      subst h
      exact hr
  | cons q resto ih =>
      intro nome r r2 hq hr h
      obtain ⟨hstr, cs⟩ := q
      simp only [processarHashGrupos] at h
      split at h
      · rename_i hlen
        cases hs : somarGrupo cs r.tamanhoTotal r.totalDuplicatas with
        | error e => rw [hs] at h; simp at h
        | ok p =>
            obtain ⟨b, c⟩ := p
            rw [hs] at h
            simp only at h
            refine ih nome ⟨r.grupos ++ [⟨nome, hstr, cs⟩], b, c, true⟩ r2
              (fun q2 hq2 => hq q2 (List.mem_cons_of_mem _ hq2)) ?_ h
            intro g hg
            rcases List.mem_append.mp hg with hg2 | hg2
            · exact hr g hg2
            · have hgeq : g = ⟨nome, hstr, cs⟩ := by simpa using hg2
              subst hgeq
              intro p hp
              obtain ⟨e1, e2, e3⟩ := hq (hstr, cs) (List.mem_cons_self _ _) p hp
              exact ⟨e3, e1, e2⟩
      · exact ih nome r r2 (fun q2 hq2 => hq q2 (List.mem_cons_of_mem _ hq2)) hr h

/-- The hash-group loop completes whenever no member has vanished. -/
theorem processar_ok : ∀ (hgs : List (String × List Arquivo)) (nome : String) (r : Resumo),
    (∀ q ∈ hgs, ∀ x ∈ q.2, x.tamanho ≠ none) →
    ∃ r2, processarHashGrupos nome hgs r = Except.ok r2 := by
  intro hgs
  induction hgs with
  | nil => intro nome r _; exact ⟨r, rfl⟩
  | cons q resto ih =>
      intro nome r hq
      obtain ⟨hstr, cs⟩ := q
      by_cases hlen : cs.length > 1
      · obtain ⟨⟨b, c⟩, hs⟩ := somarGrupo_ok cs r.tamanhoTotal r.totalDuplicatas
          (fun x hx => hq (hstr, cs) (List.mem_cons_self _ _) x hx)
        obtain ⟨r2, h2⟩ := ih nome ⟨r.grupos ++ [⟨nome, hstr, cs⟩], b, c, true⟩
          (fun q2 hq2 => hq q2 (List.mem_cons_of_mem _ hq2))
        refine ⟨r2, ?_⟩
        simp only [processarHashGrupos, hlen, if_pos, hs]
        exact h2
      · obtain ⟨r2, h2⟩ := ih nome r (fun q2 hq2 => hq q2 (List.mem_cons_of_mem _ hq2))
        refine ⟨r2, ?_⟩
        simp only [processarHashGrupos]
        rw [if_neg hlen]
        exact h2

/-- The hash-group loop preserves agreement of the counters with the groups. -/
theorem processar_agregados : ∀ (hgs : List (String × List Arquivo)) (nome : String)
    (r r2 : Resumo), Agregados r → processarHashGrupos nome hgs r = Except.ok r2 →
    Agregados r2 := by
  intro hgs
  induction hgs with
  | nil =>
      intro nome r r2 hr h
      simp only [processarHashGrupos, Except.ok.injEq] at h
      subst h
      exact hr
  | cons q resto ih =>
      intro nome r r2 hr h
      obtain ⟨hstr, cs⟩ := q
      simp only [processarHashGrupos] at h
      split at h
      · cases hs : somarGrupo cs r.tamanhoTotal r.totalDuplicatas with
        | error e => rw [hs] at h; simp at h
        | ok p =>
            obtain ⟨b, c⟩ := p
            rw [hs] at h
            simp only at h
            obtain ⟨e1, e2⟩ := somarGrupo_eq cs r.tamanhoTotal r.totalDuplicatas b c hs
            refine ih nome ⟨r.grupos ++ [⟨nome, hstr, cs⟩], b, c, true⟩ r2 ⟨?_, ?_⟩ h
            · rw [e1, hr.1]
              simp [somaTamanhos, tamanhoGrupoRelatado]
            · rw [e2, hr.2]
              simp [somaContagens]
      · exact ih nome r r2 hr h

/-- The name-group loop keeps the HashGroup invariant of every printed group. -/
theorem exibirLoop_inv : ∀ (grupos : List (String × List Arquivo)) (r r2 : Resumo),
    (∀ q ∈ grupos, ∀ x ∈ q.2, x.nome = q.1) →
    (∀ g ∈ r.grupos, PropGrupo g) →
    exibirLoop grupos r = Except.ok r2 → ∀ g ∈ r2.grupos, PropGrupo g := by
  intro grupos
  induction grupos with
  | nil =>
      intro r r2 _ hr h
      simp only [exibirLoop, Except.ok.injEq] at h
      subst h
      exact hr
  | cons q resto ih =>
      intro r r2 hq hr h
      obtain ⟨nome, caminhos⟩ := q
      simp only [exibirLoop] at h
      split at h
      · cases hp : processarHashGrupos nome (agruparPorHash caminhos) r with
        | error e => rw [hp] at h; simp at h
        | ok rm =>
            rw [hp] at h
            simp only at h
            refine ih rm r2 (fun q2 hq2 => hq q2 (List.mem_cons_of_mem _ hq2)) ?_ h
            refine processar_inv (agruparPorHash caminhos) nome r rm ?_ hr hp
            intro q2 hq2 x hx
            obtain ⟨e1, e2, e3⟩ := agruparPorHash_inv caminhos q2 hq2 x hx
            exact ⟨e1, e2, hq (nome, caminhos) (List.mem_cons_self _ _) x e3⟩
      · exact ih r r2 (fun q2 hq2 => hq q2 (List.mem_cons_of_mem _ hq2)) hr h

/-- The name-group loop completes whenever no traversed entry has vanished. -/
theorem exibirLoop_ok : ∀ (grupos : List (String × List Arquivo)) (r : Resumo),
    (∀ q ∈ grupos, ∀ x ∈ q.2, x.tamanho ≠ none) →
    ∃ r2, exibirLoop grupos r = Except.ok r2 := by
  intro grupos
  induction grupos with
  | nil => intro r _; exact ⟨r, rfl⟩
  | cons q resto ih =>
      intro r hq
      obtain ⟨nome, caminhos⟩ := q
      by_cases hlen : caminhos.length > 1
      · have hsz : ∀ q2 ∈ agruparPorHash caminhos, ∀ x ∈ q2.2, x.tamanho ≠ none := by
          intro q2 hq2 x hx
          obtain ⟨_, _, e3⟩ := agruparPorHash_inv caminhos q2 hq2 x hx
          exact hq (nome, caminhos) (List.mem_cons_self _ _) x e3
        obtain ⟨rm, hp⟩ := processar_ok (agruparPorHash caminhos) nome r hsz
        obtain ⟨r2, h2⟩ := ih rm (fun q2 hq2 => hq q2 (List.mem_cons_of_mem _ hq2))
        refine ⟨r2, ?_⟩
        simp only [exibirLoop, hlen, if_pos, hp]
        exact h2
      · obtain ⟨r2, h2⟩ := ih r (fun q2 hq2 => hq q2 (List.mem_cons_of_mem _ hq2))
        refine ⟨r2, ?_⟩
        simp only [exibirLoop]
        rw [if_neg hlen]
        exact h2

/-- The name-group loop preserves agreement of the counters with the groups. -/
theorem exibirLoop_agregados : ∀ (grupos : List (String × List Arquivo)) (r r2 : Resumo),
    Agregados r → exibirLoop grupos r = Except.ok r2 → Agregados r2 := by
  intro grupos
  induction grupos with
  | nil =>
      intro r r2 hr h
      simp only [exibirLoop, Except.ok.injEq] at h
      subst h
      exact hr
  | cons q resto ih =>
      intro r r2 hr h
      obtain ⟨nome, caminhos⟩ := q
      simp only [exibirLoop] at h
      split at h
      · cases hp : processarHashGrupos nome (agruparPorHash caminhos) r with
        | error e => rw [hp] at h; simp at h
        | ok rm =>
            rw [hp] at h
            simp only at h
            exact ih rm r2 (processar_agregados (agruparPorHash caminhos) nome r rm hr hp) h
      · exact ih r r2 hr h

/-- HashGroup invariant for every group printed by a completed run. -/
theorem exibir_inv (es : List Arquivo) (r : Resumo)
    (h : exibir_duplicados (agruparPorNome es) = Except.ok r) :
    ∀ g ∈ r.grupos, PropGrupo g :=
  exibirLoop_inv (agruparPorNome es) ⟨[], 0, 0, false⟩ r (agruparPorNome_nomes es)
    (by simp) h

/-! ## The claims -/

/-- Claim C1: any two file paths placed in the same HashGroup (and therefore
listed together in one reported duplicate group) have both an identical base
file name and an identical content digest; consequently a pair of files with
identical byte content but different base names is never reported as
duplicates of each other. -/
theorem claim_C1 (es : List Arquivo) (r : Resumo)
    (h : exibir_duplicados (agruparPorNome es) = Except.ok r) :
    ∀ g ∈ r.grupos, ∀ p ∈ g.caminhos, ∀ q ∈ g.caminhos,
      (p.nome = q.nome ∧ calcularHash p = calcularHash q) ∧
      (p.conteudo = q.conteudo → p.nome ≠ q.nome → False) := by
  intro g hg p hp q hq
  obtain ⟨hp1, hp2, _⟩ := exibir_inv es r h g hg p hp
  obtain ⟨hq1, hq2, _⟩ := exibir_inv es r h g hg q hq
  exact ⟨⟨hp1.trans hq1.symm, hp2.trans hq2.symm⟩,
    fun _ hne => hne (hp1.trans hq1.symm)⟩

set_option maxRecDepth 1000000 in
/-- Witness for C1 on the spec's Scenario A run. -/
theorem claim_C1_witness :
    arqA.nome = arqB.nome ∧ calcularHash arqA = calcularHash arqB :=
  (claim_C1 [arqA, arqB] resumoAB (by rfl) ⟨"x.txt", calcularHash arqA, [arqA, arqB]⟩
    (by simp [resumoAB]) arqA (by simp) arqB (by simp)).1

/-- Claim C2: in a completed run the accumulated byte total is the sum of the
on-disk sizes of all files in all reported duplicate groups and the count is
their number; with count at least 1 the printed estimate is total-bytes minus
the integer quotient total-bytes / total-count, and with count 0 no estimate
is printed. -/
theorem claim_C2 (es : List Arquivo) (r : Resumo)
    (h : exibir_duplicados (agruparPorNome es) = Except.ok r) :
    r.tamanhoTotal = somaTamanhos r.grupos ∧
    r.totalDuplicatas = somaContagens r.grupos ∧
    (1 ≤ r.totalDuplicatas →
      estimativaLiberacao r.tamanhoTotal r.totalDuplicatas =
        some (r.tamanhoTotal - r.tamanhoTotal / r.totalDuplicatas)) ∧
    (r.totalDuplicatas = 0 →
      estimativaLiberacao r.tamanhoTotal r.totalDuplicatas = none) := by
  have hag : Agregados r :=
    exibirLoop_agregados (agruparPorNome es) ⟨[], 0, 0, false⟩ r ⟨rfl, rfl⟩ h
  refine ⟨hag.1, hag.2, fun h1 => ?_, fun h0 => ?_⟩
  · unfold estimativaLiberacao
    rw [if_pos (by omega)]
  · unfold estimativaLiberacao
    rw [if_neg (by omega)]

set_option maxRecDepth 1000000 in
/-- Witness for C2 on the spec's Scenario A run (10 bytes, 2 files, estimate
10 - 10 / 2 = 5). -/
theorem claim_C2_witness :
    1 ≤ resumoAB.totalDuplicatas ∧
    estimativaLiberacao resumoAB.tamanhoTotal resumoAB.totalDuplicatas =
      some (resumoAB.tamanhoTotal - resumoAB.tamanhoTotal / resumoAB.totalDuplicatas) :=
  ⟨by decide, (claim_C2 [arqA, arqB] resumoAB (by rfl)).2.2.1 (by decide)⟩

/-- Claim C3: the digest is a deterministic function of the file's byte
content — two openable files with identical bytes get identical digests — and
the chunked streaming loop (8192-byte chunks plus a final partial chunk)
yields exactly the digest of the whole byte sequence hashed at once. -/
theorem claim_C3 (f1 f2 : Arquivo) (bs : List Nat) :
    (f1.conteudo = some bs → f2.conteudo = some bs → calcularHash f1 = calcularHash f2) ∧
    (f1.conteudo = some bs → calcularHash f1 = hexEncode (sha256 bs)) := by
  refine ⟨fun h1 h2 => ?_, calcularHash_conteudo f1 bs⟩
  rw [calcularHash_conteudo f1 bs h1, calcularHash_conteudo f2 bs h2]

/-- Witness for C3 on the two "hello" files of Scenario A. -/
theorem claim_C3_witness :
    calcularHash arqA = calcularHash arqB ∧
    calcularHash arqA = hexEncode (sha256 [104, 101, 108, 108, 111]) :=
  ⟨(claim_C3 arqA arqB [104, 101, 108, 108, 111]).1 rfl rfl,
   (claim_C3 arqA arqB [104, 101, 108, 108, 111]).2 rfl⟩

/-- Claim C4: a name group with exactly one member never has its path digested,
and every digested path belongs to a name shared by two or more discovered
files. -/
theorem claim_C4 (es : List Arquivo) (nome : String) (a : Arquivo) :
    ((nome, [a]) ∈ agruparPorNome es → a ∉ chamadasDigest (agruparPorNome es)) ∧
    (∀ b ∈ chamadasDigest (agruparPorNome es),
      ∃ q, q ∈ agruparPorNome es ∧ q.2.length > 1 ∧ b ∈ q.2) := by
  constructor
  · intro hmem hcall
    obtain ⟨q, hqG, hlen, haq⟩ := mem_chamadasDigest (agruparPorNome es) a hcall
    obtain ⟨k, l⟩ := q
    have hk : a.nome = k := agruparPorNome_nomes es (k, l) hqG a haq
    have hn : a.nome = nome :=
      agruparPorNome_nomes es (nome, [a]) hmem a (List.mem_cons_self _ _)
    have hkn : k = nome := hk.symm.trans hn
    subst hkn
    have hluniq : l = [a] :=
      grupo_unico (agruparPorNome es) (nodup_chaves_agruparPorNome es) k l [a] hqG hmem
    rw [hluniq] at hlen
    simp at hlen
  · exact fun b hb => mem_chamadasDigest (agruparPorNome es) b hb

/-- Witness for C4 on a run containing one uniquely named file. -/
theorem claim_C4_witness : arqUnico ∉ chamadasDigest (agruparPorNome [arqUnico]) :=
  (claim_C4 [arqUnico] "y.txt" arqUnico).1 (by decide)

/-- Claim C5: a path whose digest computation fails is placed in no HashGroup
and is excluded from duplicate reporting, so two files that both fail
digesting are never grouped together through the empty placeholder value. -/
theorem claim_C5 (es : List Arquivo) (r : Resumo) (p : Arquivo)
    (hfalha : p.conteudo = none) :
    (∀ (caminhos : List Arquivo), ∀ q ∈ agruparPorHash caminhos, p ∉ q.2) ∧
    (exibir_duplicados (agruparPorNome es) = Except.ok r →
      ∀ g ∈ r.grupos, p ∉ g.caminhos) := by
  have hvazio : calcularHash p = "" := calcularHash_falha p hfalha
  constructor
  · intro caminhos q hq hp
    obtain ⟨e1, e2, _⟩ := agruparPorHash_inv caminhos q hq p hp
    exact e2 (e1.symm.trans hvazio)
  · intro h g hg hp
    obtain ⟨_, e2, e3⟩ := exibir_inv es r h g hg p hp
    exact e3 (e2.symm.trans hvazio)

set_option maxRecDepth 1000000 in
/-- Witness for C5: the unreadable file is not in the reported Scenario A
group. -/
theorem claim_C5_witness :
    arqFalho ∉ (Grupo.mk "x.txt" (calcularHash arqA) [arqA, arqB]).caminhos :=
  (claim_C5 [arqA, arqB] resumoAB arqFalho rfl).2 (by rfl)
    ⟨"x.txt", calcularHash arqA, [arqA, arqB]⟩ (by simp [resumoAB])

set_option maxRecDepth 1000000 in
/-- Counterexample to C6 as stated: two identically named copies of "hello"
are a reported duplicate group, one of them has vanished by size-query time,
and the whole report aborts with the uncaught `file_size` error instead of
recovering locally. -/
theorem claim_C6_counterexample :
    exibir_duplicados (agruparPorNome [arqA, arqSumido]) =
      Except.error Falha.arquivoSumiu := by rfl

/-- Claim C6 as amended: `std::filesystem::file_size` at line 85 is wrapped in
no handler, so a vanished file aborts the whole report; the report completes
exactly in the absence of vanished files — here proved: when no traversed
entry has vanished, the run completes. -/
theorem claim_C6_amended (es : List Arquivo) (h : ∀ a ∈ es, a.tamanho ≠ none) :
    ∃ r, exibir_duplicados (agruparPorNome es) = Except.ok r := by
  refine exibirLoop_ok (agruparPorNome es) ⟨[], 0, 0, false⟩ ?_
  intro q hq x hx
  exact h x (agruparPorNome_sub es q hq x hx)

/-- Witness for the amended C6 on Scenario A, where no file vanishes. -/
theorem claim_C6_witness :
    ∃ r, exibir_duplicados (agruparPorNome [arqA, arqB]) = Except.ok r :=
  claim_C6_amended [arqA, arqB] (by decide)

/-- Counterexample to C7 as stated: a root that exists but is a regular file
makes the recursive directory iterator throw, no handler catches it, and the
run aborts — the scan does not complete. -/
theorem claim_C7_counterexample :
    mainModelo ⟨true, false, []⟩ = Except.error Falha.naoDiretorio := by rfl

/-- Claim C7 as amended: when the supplied root exists but is not a directory,
the `recursive_directory_iterator` constructor throws `filesystem_error`, no
caller catches it, and the program aborts rather than completing the scan. -/
theorem claim_C7_amended (raiz : Raiz) (h1 : raiz.existe = true)
    (h2 : raiz.ehDiretorio = false) :
    mainModelo raiz = Except.error Falha.naoDiretorio := by
  unfold mainModelo obter_arquivos_duplicados
  rw [h1, h2]
  simp

/-- Witness for the amended C7 on a nonempty file root. -/
theorem claim_C7_witness :
    mainModelo ⟨true, false, [arqA]⟩ = Except.error Falha.naoDiretorio :=
  claim_C7_amended ⟨true, false, [arqA]⟩ rfl rfl

/-- Claim C8: a nonexistent root yields a single error report and a nonzero
exit status with no traversal attempted (the result does not depend on the
root's entries), and every normally completed run over an existing root exits
with status 0. -/
theorem claim_C8 (raiz : Raiz) :
    (raiz.existe = false → mainModelo raiz = Except.ok (none, -1) ∧ (-1 : Int) ≠ 0) ∧
    (raiz.existe = true → ∀ o c, mainModelo raiz = Except.ok (o, c) → c = 0) := by
  constructor
  · intro h
    refine ⟨?_, by decide⟩
    unfold mainModelo
    rw [h]
    simp
  · intro h o c hm
    unfold mainModelo at hm
    rw [h] at hm
    simp only [if_true] at hm
    cases hob : obter_arquivos_duplicados raiz with
    | error e => rw [hob] at hm; simp at hm
    | ok arquivos =>
        rw [hob] at hm
        simp only at hm
        cases hex : exibir_duplicados arquivos with
        | error e => rw [hex] at hm; simp at hm
        | ok r =>
            rw [hex] at hm
            simp only [Except.ok.injEq, Prod.mk.injEq] at hm
            exact hm.2.symm

/-- Witness for C8: a nonexistent root exits -1 without traversal, an existing
empty directory exits 0. -/
theorem claim_C8_witness :
    mainModelo ⟨false, true, [arqA]⟩ = Except.ok (none, -1) ∧ (0 : Int) = 0 :=
  ⟨((claim_C8 ⟨false, true, [arqA]⟩).1 rfl).1,
   (claim_C8 ⟨true, true, []⟩).2 rfl none 0 (by rfl)⟩

/-- Claim C9: an empty file that can be opened digests successfully to the
valid digest of the empty byte sequence, which differs from the failure
sentinel returned when a file cannot be opened. -/
theorem claim_C9 (a : Arquivo) (h : a.conteudo = some []) :
    calcularHash a = hexEncode (sha256 []) ∧ calcularHash a ≠ "" := by
  have he := calcularHash_conteudo a [] h
  exact ⟨he, by rw [he]; exact sha256_hex_ne []⟩

/-- Witness for C9 on a concrete empty file. -/
theorem claim_C9_witness :
    calcularHash arqVazio = hexEncode (sha256 []) ∧ calcularHash arqVazio ≠ "" :=
  claim_C9 arqVazio rfl

/-- Claim C10: every successful digest is a string of exactly 64 hexadecimal
characters, hence never the empty string, so success and failure are disjoint
at the `calcularHash` interface. -/
theorem claim_C10 (a : Arquivo) :
    (∀ bs, a.conteudo = some bs →
      (calcularHash a).length = 64 ∧
      (∀ c ∈ (calcularHash a).data, c ∈ ("0123456789ABCDEF").data) ∧
      calcularHash a ≠ "") ∧
    (a.conteudo = none → calcularHash a = "") := by
  constructor
  · intro bs h
    rw [calcularHash_conteudo a bs h]
    exact ⟨sha256_hex_length bs,
      fun c hc => paraHex_mem (sha256 bs) (sha256_bytes_lt bs) c hc,
      sha256_hex_ne bs⟩
  · exact calcularHash_falha a

/-- Witness for C10 on a concrete openable file. -/
theorem claim_C10_witness :
    (calcularHash arqA).length = 64 ∧ calcularHash arqA ≠ "" := by
  obtain ⟨h1, _, h3⟩ := (claim_C10 arqA).1 [104, 101, 108, 108, 111] rfl
  exact ⟨h1, h3⟩

end LocalizarDuplicatas
